import Mathlib

/-!
Verification of the CrossFire orchestration and self-update engine
(`CrossFireL/crossfire.py`) against its specification.

The Python source is shallowly embedded: every external effect (process
execution, PATH lookups, the network, the filesystem) is passed in
explicitly as data, and the control flow of each embedded function follows
the source line by line.
-/

namespace CrossFire

/-- Mirrors the `RunResult` dataclass: `ok`, `code` (exit code, `-1` used as
the sentinel for timeouts and exceptions), captured stdout and stderr. -/
structure RunResult where
  ok : Bool
  code : Int
  out : String
  err : String
deriving Repr, DecidableEq

/-- Outcome of one attempted execution of an external command, as observed by
`run_command`.  A process either runs to completion with an exit status in
`0..255` (`exited`), exceeds the timeout and is killed with some partial
stdout captured (`timedOut`), or raises an exception while being launched or
awaited (`launchError`). -/
inductive ProcOutcome where
  | exited (code : Nat) (out : String) (err : String)
  | timedOut (captured : String)
  | launchError (msg : String)
deriving Repr, DecidableEq

/-- What one call of `run_command` did: the returned `RunResult`, how many
times the external command was actually launched, and the sequence of
`time.sleep` durations (in seconds) performed, in order. -/
structure ExecTrace where
  result : RunResult
  executions : Nat
  sleeps : List Nat
deriving Repr, DecidableEq

/-- The loop body of `run_command` (`for attempt in range(retries + 1)`).
`outcomes n` is the outcome of the `n`-th launch of the command.  Faithful to
the source: a retry iteration first sleeps 2 seconds; a completed process is
returned unconditionally (whether its exit code is zero or not); a timeout
kills the process and returns the sentinel result; a launch exception on the
last allowed attempt returns the exception result, otherwise sleeps 1 second
and retries.  `fuel` is `retries + 1 - attempt`, the number of loop
iterations left; the `fuel = 0` case mirrors the unreachable fall-through
`return RunResult(False, -1, "", "All retry attempts failed")`. -/
def runCommandLoop (timeout retries : Nat) (outcomes : Nat → ProcOutcome) :
    Nat → Nat → List Nat → ExecTrace
  | 0, attempt, sleeps =>
    ⟨⟨false, -1, "", "All retry attempts failed"⟩, attempt, sleeps⟩
  | fuel + 1, attempt, sleeps =>
    let sleeps1 := if attempt == 0 then sleeps else sleeps ++ [2]
    match outcomes attempt with
    | .timedOut captured =>
      ⟨⟨false, -1, captured,
        "Command timed out after " ++ toString timeout ++ " seconds"⟩,
       attempt + 1, sleeps1⟩
    | .exited code out err =>
      ⟨⟨code == 0, Int.ofNat code, out, err⟩, attempt + 1, sleeps1⟩
    | .launchError msg =>
      if attempt == retries then
        ⟨⟨false, -1, "", "Exception: " ++ msg⟩, attempt + 1, sleeps1⟩
      else
        runCommandLoop timeout retries outcomes fuel (attempt + 1)
          (sleeps1 ++ [1])

/-- `run_command(cmd, timeout, retries, ...)`: run the loop from attempt 0.
The command itself and the shell/argv mode only select which external process
is observed, so they are absorbed into the `outcomes` oracle. -/
def run_command (timeout retries : Nat) (outcomes : Nat → ProcOutcome) :
    ExecTrace :=
  runCommandLoop timeout retries outcomes (retries + 1) 0 []

/-- Does `l` start with `s`?  Helper for the substring test below. -/
def charsStartWith : List Char → List Char → Bool
  | _, [] => true
  | [], _ :: _ => false
  | a :: as, b :: bs => a == b && charsStartWith as bs

/-- Does `l` contain `sub` as a contiguous run?  Helper for `strContainsSub`. -/
def charsContain (sub : List Char) : List Char → Bool
  | [] => charsStartWith [] sub
  | c :: t => charsStartWith (c :: t) sub || charsContain sub t

/-- The Python `sub in s` substring test on strings. -/
def strContainsSub (s sub : String) : Bool :=
  charsContain sub.toList s.toList

/-- The Python `str.lower()`, per character (kernel-reducible counterpart of
`String.toLower`). -/
def strToLower (s : String) : String :=
  String.mk (s.toList.map Char.toLower)

/-- The Python `str.startswith(w)` (kernel-reducible counterpart of
`String.startsWith`). -/
def strStarts (s w : String) : Bool :=
  charsStartWith s.toList w.toList

/-- Simplified OS name as computed by `_os_type()`. -/
inductive OSType where
  | windows
  | macos
  | linux
  | unknown
deriving Repr, DecidableEq

/-- The ambient environment consulted by the source through `shutil.which`
and `sys.executable`.  `which c = true` models `shutil.which(c)` returning a
path; `pythonExe` is `sys.executable` (the empty string models a falsy
value). -/
structure Env where
  osType : OSType
  which : String → Bool
  pythonExe : String

/-- `dict.get` on an association list with Python falsy default: a missing
key reads as `false`. -/
def lookupB : List (String × Bool) → String → Bool
  | [], _ => false
  | (a, b) :: t, k => if a == k then b else lookupB t k

/-- Keys of `MANAGER_INSTALL_HANDLERS`, in dict insertion order. -/
def installKeys : List String :=
  ["pip", "npm", "apt", "dnf", "yum", "pacman", "zypper", "apk", "brew",
   "choco", "winget", "snap", "flatpak"]

/-- Keys of `MANAGER_REMOVE_HANDLERS`, in dict insertion order. -/
def removeKeys : List String :=
  ["pip", "npm", "brew", "apt", "dnf", "yum", "pacman", "snap", "flatpak"]

/-- `_get_python_commands()`: the current interpreter if `sys.executable` is
truthy, then each of `python3`, `python`, `py` that resolves on the path. -/
def pythonCommands (env : Env) : List (List String) :=
  (if env.pythonExe ≠ "" then [[env.pythonExe]] else []) ++
    (["python3", "python", "py"].filter env.which).map (fun c => [c])

/-- `_detect_installed_managers()`: pip is available when any Python command
resolves; every other manager is available when its own binary resolves. -/
def detectInstalledManagers (env : Env) : List (String × Bool) :=
  [("pip", (pythonCommands env).any (fun c => env.which (c.headD ""))),
   ("npm", env.which "npm"), ("apt", env.which "apt"),
   ("dnf", env.which "dnf"), ("yum", env.which "yum"),
   ("pacman", env.which "pacman"), ("zypper", env.which "zypper"),
   ("apk", env.which "apk"), ("brew", env.which "brew"),
   ("choco", env.which "choco"), ("winget", env.which "winget"),
   ("snap", env.which "snap"), ("flatpak", env.which "flatpak")]

/-- Version-specifier fragments checked by `_looks_like_python_pkg`. -/
def pythonIndicators : List String := ["==", ">=", "<=", "~=", "!=", "[", "]"]

/-- Name fragments checked by `_looks_like_python_pkg`. -/
def pythonCommon : List String :=
  ["py", "django", "flask", "numpy", "pandas", "requests", "boto3",
   "tensorflow", "torch"]

/-- `_looks_like_python_pkg`: version-specifier syntax anywhere in the
reference, or a well-known Python name as a lowercase name start. -/
def looksLikePythonPkg (pkg : String) : Bool :=
  pythonIndicators.any (fun ind => strContainsSub pkg ind) ||
    pythonCommon.any (fun w => strStarts (strToLower pkg) w)

/-- Well-known JS names checked by `_looks_like_npm_pkg`. -/
def npmCommon : List String :=
  ["express", "react", "vue", "angular", "typescript", "eslint", "webpack",
   "lodash", "axios"]

/-- `_looks_like_npm_pkg`: an `@scope` reference or an exact well-known JS
library name (lowercased). -/
def looksLikeNpmPkg (pkg : String) : Bool :=
  strStarts pkg "@" || npmCommon.contains (strToLower pkg)

/-- `_system_manager_priority()`: the OS-native manager chain.  On Linux the
source walks a static list of (manager, probe commands) pairs and takes the
first whose probe command resolves on the PATH — note that this probes
`shutil.which` directly, independently of any availability map. -/
def systemManagerPriority (env : Env) : List String :=
  match env.osType with
  | .macos => ["brew", "snap", "flatpak"]
  | .windows => ["winget", "choco"]
  | .linux =>
    if env.which "apt" || env.which "apt-get" then ["apt", "snap", "flatpak"]
    else if env.which "dnf" then ["dnf", "snap", "flatpak"]
    else if env.which "yum" then ["yum", "snap", "flatpak"]
    else if env.which "pacman" then ["pacman", "snap", "flatpak"]
    else if env.which "zypper" then ["zypper", "snap", "flatpak"]
    else if env.which "apk" then ["apk", "snap", "flatpak"]
    else ["snap", "flatpak"]
  | .unknown => ["snap", "flatpak"]

/-- `_ordered_install_manager_candidates(pkg, installed)`: ecosystem
heuristics first (pip, then npm), then the system priority chain, then all
remaining installed managers in map order, deduplicating throughout. -/
def orderedInstallManagerCandidates (pkg : String)
    (installed : List (String × Bool)) (env : Env) : List String :=
  let prefs := if looksLikePythonPkg pkg && lookupB installed "pip"
    then ["pip"] else []
  let prefs := if looksLikeNpmPkg pkg && lookupB installed "npm"
    then prefs ++ ["npm"] else prefs
  let prefs := (systemManagerPriority env).foldl
    (fun acc m => if lookupB installed m && !acc.contains m
      then acc ++ [m] else acc) prefs
  installed.foldl
    (fun acc p => if p.2 && !acc.contains p.1
      then acc ++ [p.1] else acc) prefs

/-- `_pip_install(pkg)`: the first Python command whose binary resolves,
extended with the pip install arguments; falls back to `sys.executable`. -/
def pipInstallCmd (env : Env) (pkg : String) : List String :=
  match (pythonCommands env).find? (fun c => env.which (c.headD "")) with
  | some c => c ++ ["-m", "pip", "install", "--user", pkg]
  | none => [env.pythonExe, "-m", "pip", "install", "--user", pkg]

/-- `_pip_remove(pkg)`: analogous to `pipInstallCmd`. -/
def pipRemoveCmd (env : Env) (pkg : String) : List String :=
  match (pythonCommands env).find? (fun c => env.which (c.headD "")) with
  | some c => c ++ ["-m", "pip", "uninstall", "-y", pkg]
  | none => [env.pythonExe, "-m", "pip", "uninstall", "-y", pkg]

/-- `MANAGER_INSTALL_HANDLERS.get(manager)` followed by building the
install command for `pkg`: one argv template per manager. -/
def managerInstallCmd (env : Env) (manager pkg : String) :
    Option (List String) :=
  if manager == "pip" then some (pipInstallCmd env pkg)
  else if manager == "npm" then some ["npm", "install", "-g", pkg]
  else if manager == "apt" then some ["sudo", "apt", "install", "-y", pkg]
  else if manager == "dnf" then some ["sudo", "dnf", "install", "-y", pkg]
  else if manager == "yum" then some ["sudo", "yum", "install", "-y", pkg]
  else if manager == "pacman" then
    some ["sudo", "pacman", "-S", "--noconfirm", pkg]
  else if manager == "zypper" then
    some ["sudo", "zypper", "--non-interactive", "install", pkg]
  else if manager == "apk" then some ["sudo", "apk", "add", pkg]
  else if manager == "brew" then some ["brew", "install", pkg]
  else if manager == "choco" then some ["choco", "install", "-y", pkg]
  else if manager == "winget" then
    some ["winget", "install", "--silent", "--accept-package-agreements",
          "--accept-source-agreements", pkg]
  else if manager == "snap" then some ["sudo", "snap", "install", pkg]
  else if manager == "flatpak" then some ["flatpak", "install", "-y", pkg]
  else none

/-- `MANAGER_REMOVE_HANDLERS.get(manager)` followed by building the removal
command for `pkg`. -/
def managerRemoveCmd (env : Env) (manager pkg : String) :
    Option (List String) :=
  if manager == "pip" then some (pipRemoveCmd env pkg)
  else if manager == "npm" then some ["npm", "uninstall", "-g", pkg]
  else if manager == "brew" then some ["brew", "uninstall", pkg]
  else if manager == "apt" then some ["sudo", "apt", "remove", "-y", pkg]
  else if manager == "dnf" then some ["sudo", "dnf", "remove", "-y", pkg]
  else if manager == "yum" then some ["sudo", "yum", "remove", "-y", pkg]
  else if manager == "pacman" then
    some ["sudo", "pacman", "-R", "--noconfirm", pkg]
  else if manager == "snap" then some ["sudo", "snap", "remove", pkg]
  else if manager == "flatpak" then some ["flatpak", "uninstall", "-y", pkg]
  else none

/-- The `RunResult` the fallback loop observes for manager `m`: the external
world (`exec`) answers per command.  The `none` arm is unreachable for
candidates produced by the resolvers, which only name managers that have a
handler. -/
def attemptRes (cmdFor : String → Option (List String))
    (exec : List String → RunResult) (m : String) : RunResult :=
  match cmdFor m with
  | some c => exec c
  | none => ⟨false, -1, "", ""⟩

/-- The shared shape of the install and removal fallback loops: walk the
candidates in order, skip candidates without a handler (`continue`), record
one attempt per executed command, stop at the first `ok` result.  The
record-store write on success is an out-of-scope collaborator (spec §1) and
is modelled as infallible, so the per-candidate `except` arm of the source is
unreachable here. -/
def attemptLoop (cmdFor : String → Option (List String))
    (exec : List String → RunResult) :
    List String → List (String × RunResult) →
      Bool × List (String × RunResult)
  | [], attempts => (false, attempts)
  | m :: rest, attempts =>
    match cmdFor m with
    | none => attemptLoop cmdFor exec rest attempts
    | some c =>
      let res := exec c
      if res.ok then (true, attempts ++ [(m, res)])
      else attemptLoop cmdFor exec rest (attempts ++ [(m, res)])

/-- The candidate order `install_package` walks: the order of the resolver, with
an available preferred manager moved to the front; a preferred manager that
is unknown or unavailable only triggers a console warning and is ignored. -/
def installCandidates (pkg : String) (preferred : Option String)
    (env : Env) : List String :=
  let installed := detectInstalledManagers env
  let candidates := orderedInstallManagerCandidates pkg installed env
  match preferred with
  | none => candidates
  | some p =>
    let pm := strToLower p
    if installKeys.contains pm && lookupB installed pm then
      pm :: candidates.filter (fun m => m != pm)
    else candidates

/-- `install_package(pkg, preferred_manager)`: guard on any manager being
available, resolve the candidate order, and drive the fallback loop with
zero executor retries.  Console output is elided. -/
def installPackage (pkg : String) (preferred : Option String) (env : Env)
    (exec : List String → RunResult) :
    Bool × List (String × RunResult) :=
  let installed := detectInstalledManagers env
  if !installed.any (fun p => p.2) then (false, [])
  else
    let candidates := installCandidates pkg preferred env
    if candidates.isEmpty then (false, [])
    else attemptLoop (fun m => managerInstallCmd env m pkg) exec candidates []

/-- The candidate order `remove_package` walks: an explicitly requested
manager is the sole candidate when removal-capable and available (and the
call errors out otherwise); with no request, the resolver order filtered
to removal-capable managers. -/
def removeCandidates (pkg : String) (managerOpt : Option String)
    (env : Env) : List String :=
  let installed := detectInstalledManagers env
  match managerOpt with
  | some m =>
    if removeKeys.contains (strToLower m) && lookupB installed (strToLower m) then
      [strToLower m]
    else []
  | none =>
    (orderedInstallManagerCandidates pkg installed env).filter
      (fun m => removeKeys.contains m)

/-- `remove_package(pkg, manager)`: unlike `install_package`, a requested
manager that is unknown, not removal-capable or unavailable is a hard error
— the call returns `(False, [])` without attempting anything. -/
def removePackage (pkg : String) (managerOpt : Option String) (env : Env)
    (exec : List String → RunResult) :
    Bool × List (String × RunResult) :=
  let installed := detectInstalledManagers env
  if !installed.any (fun p => p.2) then (false, [])
  else
    match managerOpt with
    | some m =>
      if removeKeys.contains (strToLower m) && lookupB installed (strToLower m) then
        attemptLoop (fun x => managerRemoveCmd env x pkg) exec
          [strToLower m] []
      else (false, [])
    | none =>
      let candidates :=
        (orderedInstallManagerCandidates pkg installed env).filter
          (fun m => removeKeys.contains m)
      if candidates.isEmpty then (false, [])
      else attemptLoop (fun x => managerRemoveCmd env x pkg) exec
        candidates []

/-- The network and I/O behaviour observed by one call of
`download_file_with_progress`: whether `urlopen` raises, the
`Content-Length` header (the source uses it only to size the progress bar),
the successive chunks yielded by `response.read(32768)`, and an optional
exception raised during streaming after a given number of chunks were
written. -/
structure DownloadWorld where
  openFails : Bool
  contentLength : Nat
  chunks : List (List Nat)
  failAfter : Option Nat
deriving Repr, DecidableEq

/-- The slice of the filesystem `download_file_with_progress` touches: the
content at the destination path (`none` = the file does not exist). -/
structure FS where
  dest : Option (List Nat)
deriving Repr, DecidableEq

/-- What one call of `download_file_with_progress` did: the returned
boolean, the final state of the destination path, whether the destination
was opened for writing during the call (`open` in write mode, a
filesystem mutation even for zero chunks), and how many payload bytes were
fetched. -/
structure DownloadResult where
  ok : Bool
  fs : FS
  wroteDest : Bool
  bytesDownloaded : Nat
deriving Repr, DecidableEq

/-- `download_file_with_progress(url, dest_path, expected_hash)`.  Faithful
control flow: `urlopen`; create the destination and stream all chunks into
it while hashing; only then compare the SHA-256 hex digest
(case-insensitively) against `expected_hash` and delete the file on
mismatch; on any exception delete the destination if it exists and return
`False`.  SHA-256 itself is abstracted as the `hashFn` parameter.  There is
no size limit anywhere in the source: `contentLength` is read but never
compared against a cap. -/
def downloadFileWithProgress (hashFn : List Nat → String)
    (w : DownloadWorld) (expectedHash : Option String) (_fs0 : FS) :
    DownloadResult :=
  if w.openFails then
    ⟨false, ⟨none⟩, false, 0⟩
  else
    match w.failAfter with
    | some k =>
      ⟨false, ⟨none⟩, true, ((w.chunks.take k).map List.length).sum⟩
    | none =>
      let data := w.chunks.flatten
      match expectedHash with
      | some h =>
        if strToLower (hashFn data) != strToLower h then
          ⟨false, ⟨none⟩, true, data.length⟩
        else ⟨true, ⟨some data⟩, true, data.length⟩
      | none => ⟨true, ⟨some data⟩, true, data.length⟩

/-- The files `cross_update` touches: the running script, its `.backup`
sibling, and the temporary download target in the cache directory. -/
structure UpdateState where
  currentScript : Option (List Nat)
  backup : Option (List Nat)
  tempFile : Option (List Nat)
deriving Repr, DecidableEq

/-- External behaviour for one `cross_update` call: the download world, and
whether `shutil.copy2(temp_file, current_script)` raises — `some c` models a
failure that leaves content `c` (for example a truncated copy) at the
target. -/
structure UpdateWorld where
  dl : DownloadWorld
  swapFailure : Option (List Nat)
deriving Repr, DecidableEq

/-- What one call of `cross_update` did. -/
structure UpdateOutcome where
  ok : Bool
  st : UpdateState
  bytesDownloaded : Nat
deriving Repr, DecidableEq

/-- `cross_update(url, verify_sha256)`.  Faithful control flow: download to
a temp file (returning `False` on download failure); copy the current
script to `<script>.py.backup` if the script exists; copy the temp file over
the current script; chmod (content-irrelevant) and delete the temp file.
The `except` arm prints the error and returns `False` — it never restores
from the backup.  The `url` argument is passed straight to the downloader;
the source performs no host or allowlist check on it. -/
def cross_update (hashFn : List Nat → String) (w : UpdateWorld)
    (_url : String) (verifySha : Option String) (st : UpdateState) :
    UpdateOutcome :=
  let dres := downloadFileWithProgress hashFn w.dl verifySha ⟨st.tempFile⟩
  let st1 : UpdateState := { st with tempFile := dres.fs.dest }
  if !dres.ok then ⟨false, st1, dres.bytesDownloaded⟩
  else
    let data := dres.fs.dest.getD []
    let st2 : UpdateState :=
      match st.currentScript with
      | some cur => { st1 with backup := some cur }
      | none => st1
    match w.swapFailure with
    | some corrupt =>
      ⟨false, { st2 with currentScript := some corrupt },
       dres.bytesDownloaded⟩
    | none =>
      ⟨true, { st2 with currentScript := some data, tempFile := none },
       dres.bytesDownloaded⟩

/-- A Linux host where only `apt` resolves on the PATH. -/
def envLinuxApt : Env := ⟨.linux, fun s => s == "apt", ""⟩

/-- A Linux host where only `dnf` resolves on the PATH. -/
def envLinuxDnf : Env := ⟨.linux, fun s => s == "dnf", ""⟩

/-- A macOS host where only `brew` resolves on the PATH. -/
def envMacBrew : Env := ⟨.macos, fun s => s == "brew", ""⟩

/-- An availability map marking exactly `apt` and `dnf` available, over the
full key set in registry order. -/
def instAptDnf : List (String × Bool) :=
  [("pip", false), ("npm", false), ("apt", true), ("dnf", true),
   ("yum", false), ("pacman", false), ("zypper", false), ("apk", false),
   ("brew", false), ("choco", false), ("winget", false), ("snap", false),
   ("flatpak", false)]

/-- The fallback-orchestrator invariant of spec §4.4, for one call returning
`res` over candidate order `cands`, where `p m` says whether attempting
manager `m` succeeds: at most one recorded attempt succeeded; every
non-final attempt failed; the number of attempts is the 1-based index of the
first successful candidate, or the full candidate count when all fail; and
the returned flag says whether any candidate succeeds. -/
def orchInvariant (res : Bool × List (String × RunResult))
    (cands : List String) (p : String → Bool) : Prop :=
  res.2.countP (fun a => a.2.ok) ≤ 1 ∧
    res.2.dropLast.countP (fun a => a.2.ok) = 0 ∧
    res.2.length = min (cands.findIdx p + 1) cands.length ∧
    res.1 = cands.any p

theorem attemptLoop_eq (cmdFor : String → Option (List String))
    (exec : List String → RunResult) (cs : List String) :
    ∀ acc : List (String × RunResult),
      (∀ m ∈ cs, (cmdFor m).isSome) →
      attemptLoop cmdFor exec cs acc =
        (cs.any (fun m => (attemptRes cmdFor exec m).ok),
         acc ++
           (cs.take
             (cs.findIdx (fun m => (attemptRes cmdFor exec m).ok) + 1)).map
             (fun m => (m, attemptRes cmdFor exec m))) := by
  induction cs with
  | nil => intro acc _; simp [attemptLoop]
  | cons m rest ih =>
    intro acc h
    obtain ⟨c, hc⟩ := Option.isSome_iff_exists.mp (h m (by simp))
    have hres : attemptRes cmdFor exec m = exec c := by
      simp [attemptRes, hc]
    by_cases hok : (exec c).ok = true
    · simp [attemptLoop, hc, hok, List.findIdx_cons, hres, List.any_cons]
    · have hok' : (exec c).ok = false := by
        cases hx : (exec c).ok
        · rfl
        · exact absurd hx hok
      have step :
          attemptLoop cmdFor exec (m :: rest) acc =
            attemptLoop cmdFor exec rest (acc ++ [(m, exec c)]) := by
        simp [attemptLoop, hc, hok']
      rw [step, ih (acc ++ [(m, exec c)]) (fun x hx => h x (by simp [hx]))]
      simp [List.any_cons, hres, hok', List.findIdx_cons, List.take_succ_cons,
        List.append_assoc]

theorem countP_take_findIdx {α : Type} (p : α → Bool) (l : List α) :
    ((l.take (l.findIdx p + 1)).countP p ≤ 1) ∧
      ((l.take (l.findIdx p + 1)).dropLast.countP p = 0) := by
  induction l with
  | nil => simp
  | cons a t ih =>
    by_cases hp : p a = true
    · have : (a :: t).findIdx p = 0 := by
        rw [List.findIdx_cons, hp]; rfl
      rw [this]
      simp [List.countP_cons, hp]
    · have hp' : p a = false := by
        cases hx : p a
        · rfl
        · exact absurd hx hp
      have hidx : (a :: t).findIdx p = t.findIdx p + 1 := by
        rw [List.findIdx_cons, hp']; rfl
      rw [hidx, List.take_succ_cons]
      constructor
      · rw [List.countP_cons]
        simp [hp']
        exact ih.1
      · rcases hx : t.take (t.findIdx p + 1) with _ | ⟨b, u⟩
        · simp
        · rw [List.dropLast_cons_of_ne_nil (by simp [hx])]
          rw [List.countP_cons]
          have h2 := ih.2
          rw [hx] at h2
          simp [hp', h2]

theorem attemptLoop_invariant (cmdFor : String → Option (List String))
    (exec : List String → RunResult) (cs : List String)
    (h : ∀ m ∈ cs, (cmdFor m).isSome) :
    orchInvariant (attemptLoop cmdFor exec cs []) cs
      (fun m => (attemptRes cmdFor exec m).ok) := by
  rw [attemptLoop_eq cmdFor exec cs [] h]
  unfold orchInvariant
  refine ⟨?_, ?_, ?_, rfl⟩
  · simp only [List.nil_append]
    rw [List.countP_map]
    exact (countP_take_findIdx (fun m => (attemptRes cmdFor exec m).ok) cs).1
  · simp only [List.nil_append]
    rw [← List.map_dropLast, List.countP_map]
    exact (countP_take_findIdx (fun m => (attemptRes cmdFor exec m).ok) cs).2
  · simp only [List.nil_append, List.length_map, List.length_take]

theorem mem_availFold (installed : List (String × Bool)) (L : List String) :
    ∀ (acc : List String) (m : String),
      m ∈ L.foldl
        (fun acc x => if lookupB installed x && !acc.contains x
          then acc ++ [x] else acc) acc →
      m ∈ acc ∨ m ∈ L := by
  induction L with
  | nil => intro acc m h; exact Or.inl h
  | cons a t ih =>
    intro acc m h
    simp only [List.foldl_cons] at h
    rcases ih _ m h with h1 | h1
    · split at h1
      · rcases List.mem_append.mp h1 with h2 | h2
        · exact Or.inl h2
        · simp only [List.mem_singleton] at h2
          exact Or.inr (by simp [h2])
      · exact Or.inl h1
    · exact Or.inr (List.mem_cons_of_mem a h1)

theorem mem_itemsFold (L : List (String × Bool)) :
    ∀ (acc : List String) (m : String),
      m ∈ L.foldl
        (fun acc q => if q.2 && !acc.contains q.1
          then acc ++ [q.1] else acc) acc →
      m ∈ acc ∨ m ∈ L.map Prod.fst := by
  induction L with
  | nil => intro acc m h; exact Or.inl h
  | cons a t ih =>
    intro acc m h
    simp only [List.foldl_cons] at h
    rcases ih _ m h with h1 | h1
    · split at h1
      · rcases List.mem_append.mp h1 with h2 | h2
        · exact Or.inl h2
        · simp only [List.mem_singleton] at h2
          exact Or.inr (by simp [h2])
      · exact Or.inl h1
    · exact Or.inr (by simp only [List.map_cons]; exact List.mem_cons_of_mem _ h1)

theorem sysPriority_sub_installKeys (env : Env) :
    ∀ m ∈ systemManagerPriority env, m ∈ installKeys := by
  obtain ⟨os, w, py⟩ := env
  intro m hm
  cases os
  case windows =>
    simp only [systemManagerPriority] at hm
    fin_cases hm <;> decide
  case macos =>
    simp only [systemManagerPriority] at hm
    fin_cases hm <;> decide
  case unknown =>
    simp only [systemManagerPriority] at hm
    fin_cases hm <;> decide
  case linux =>
    simp only [systemManagerPriority] at hm
    split at hm
    · fin_cases hm <;> decide
    · split at hm
      · fin_cases hm <;> decide
      · split at hm
        · fin_cases hm <;> decide
        · split at hm
          · fin_cases hm <;> decide
          · split at hm
            · fin_cases hm <;> decide
            · split at hm
              · fin_cases hm <;> decide
              · fin_cases hm <;> decide

theorem ordered_sub_installKeys (pkg : String) (env : Env) (m : String)
    (hm : m ∈ orderedInstallManagerCandidates pkg
      (detectInstalledManagers env) env) : m ∈ installKeys := by
  unfold orderedInstallManagerCandidates at hm
  rcases mem_itemsFold _ _ m hm with h1 | h1
  · rcases mem_availFold _ _ _ m h1 with h2 | h2
    · split at h2
      · rcases List.mem_append.mp h2 with h3 | h3
        · split at h3
          · simp only [List.mem_singleton] at h3
            subst h3; decide
          · exact absurd h3 (List.not_mem_nil m)
        · simp only [List.mem_singleton] at h3
          subst h3; decide
      · split at h2
        · simp only [List.mem_singleton] at h2
          subst h2; decide
        · exact absurd h2 (List.not_mem_nil m)
    · exact sysPriority_sub_installKeys env m h2
  · have : (detectInstalledManagers env).map Prod.fst = installKeys := rfl
    rw [this] at h1
    exact h1

theorem installKeys_handler (env : Env) (pkg m : String)
    (hm : m ∈ installKeys) : (managerInstallCmd env m pkg).isSome := by
  simp only [installKeys, List.mem_cons, List.mem_singleton,
    List.not_mem_nil, or_false] at hm
  rcases hm with rfl | rfl | rfl | rfl | rfl | rfl | rfl | rfl | rfl | rfl |
    rfl | rfl | rfl <;> rfl

theorem removeKeys_handler (env : Env) (pkg m : String)
    (hm : m ∈ removeKeys) : (managerRemoveCmd env m pkg).isSome := by
  simp only [removeKeys, List.mem_cons, List.mem_singleton,
    List.not_mem_nil, or_false] at hm
  rcases hm with rfl | rfl | rfl | rfl | rfl | rfl | rfl | rfl | rfl <;> rfl

theorem installCandidates_sub (pkg : String) (preferred : Option String)
    (env : Env) :
    ∀ m ∈ installCandidates pkg preferred env, m ∈ installKeys := by
  intro m hm
  rcases preferred with _ | p
  · exact ordered_sub_installKeys pkg env m hm
  · simp only [installCandidates] at hm
    split at hm
    · rcases List.mem_cons.mp hm with rfl | h1
      · rename_i hcond
        have hcontains := ((Bool.and_eq_true _ _).mp hcond).1
        simpa using hcontains
      · exact ordered_sub_installKeys pkg env m (List.mem_filter.mp h1).1
    · exact ordered_sub_installKeys pkg env m hm

theorem removeCandidates_sub (pkg : String) (managerOpt : Option String)
    (env : Env) :
    ∀ m ∈ removeCandidates pkg managerOpt env, m ∈ removeKeys := by
  intro m hm
  rcases managerOpt with _ | q
  · simp only [removeCandidates] at hm
    have := (List.mem_filter.mp hm).2
    simpa using this
  · simp only [removeCandidates] at hm
    split at hm
    · simp only [List.mem_singleton] at hm
      subst hm
      rename_i hcond
      have hcontains := ((Bool.and_eq_true _ _).mp hcond).1
      simpa using hcontains
    · exact absurd hm (List.not_mem_nil m)

theorem lookupB_eq_false (installed : List (String × Bool))
    (h : ∀ q ∈ installed, q.2 = false) : ∀ k, lookupB installed k = false := by
  induction installed with
  | nil => intro k; rfl
  | cons a t ih =>
    intro k
    obtain ⟨x, b⟩ := a
    simp only [lookupB]
    split
    · exact h (x, b) (by simp)
    · exact ih (fun q hq => h q (by simp [hq])) k

theorem itemsFold_id (L : List (String × Bool))
    (h : ∀ q ∈ L, q.2 = false) :
    ∀ acc,
      L.foldl (fun acc q => if q.2 && !acc.contains q.1
        then acc ++ [q.1] else acc) acc = acc := by
  induction L with
  | nil => intro acc; rfl
  | cons a t ih =>
    intro acc
    have ha : a.2 = false := h a (by simp)
    simp only [List.foldl_cons, ha, Bool.false_and, Bool.false_eq_true,
      if_false]
    exact ih (fun q hq => h q (by simp [hq])) acc

theorem foldl_keep {α β : Type} (L : List α) :
    ∀ acc : β, L.foldl (fun acc _ => acc) acc = acc := by
  induction L with
  | nil => intro acc; rfl
  | cons a t ih => intro acc; simp only [List.foldl_cons]; exact ih acc

theorem ordered_nil (pkg : String) (installed : List (String × Bool))
    (env : Env) (h : ∀ q ∈ installed, q.2 = false) :
    orderedInstallManagerCandidates pkg installed env = [] := by
  have hl := lookupB_eq_false installed h
  simp only [orderedInstallManagerCandidates, hl, Bool.and_false,
    Bool.false_and, Bool.false_eq_true, if_false]
  rw [foldl_keep]
  exact itemsFold_id installed h []

theorem installCandidates_nil (pkg : String) (preferred : Option String)
    (env : Env) (h : ∀ q ∈ detectInstalledManagers env, q.2 = false) :
    installCandidates pkg preferred env = [] := by
  have hord := ordered_nil pkg (detectInstalledManagers env) env h
  have hl := lookupB_eq_false _ h
  cases preferred with
  | none => simpa [installCandidates] using hord
  | some p => simp [installCandidates, hord, hl]

theorem removeCandidates_nil (pkg : String) (managerOpt : Option String)
    (env : Env) (h : ∀ q ∈ detectInstalledManagers env, q.2 = false) :
    removeCandidates pkg managerOpt env = [] := by
  have hord := ordered_nil pkg (detectInstalledManagers env) env h
  have hl := lookupB_eq_false _ h
  cases managerOpt with
  | none => simp [removeCandidates, hord]
  | some q => simp [removeCandidates, hl]

theorem orchInvariant_empty (p : String → Bool) :
    orchInvariant (false, []) [] p := by
  simp [orchInvariant, List.findIdx_nil]

/-- Claim C1: for every package reference, environment (availability map)
and candidate order, `install_package` and `remove_package` stop at the
first successful manager — at most one recorded attempt has `ok = true`, any
such attempt is the last element, no later candidate is attempted, and the
attempts list length is the 1-based index of the first success (or the full
candidate count when every candidate fails); the returned flag matches. -/
theorem install_remove_stop_at_first_success (pkg : String)
    (preferred : Option String) (env : Env)
    (exec : List String → RunResult) :
    orchInvariant (installPackage pkg preferred env exec)
        (installCandidates pkg preferred env)
        (fun m =>
          (attemptRes (fun x => managerInstallCmd env x pkg) exec m).ok) ∧
      orchInvariant (removePackage pkg preferred env exec)
        (removeCandidates pkg preferred env)
        (fun m =>
          (attemptRes (fun x => managerRemoveCmd env x pkg) exec m).ok) := by
  constructor
  · by_cases hg : (detectInstalledManagers env).any (fun p => p.2) = true
    · by_cases he : (installCandidates pkg preferred env).isEmpty = true
      · have hc : installCandidates pkg preferred env = [] := by
          simpa [List.isEmpty_iff] using he
        have hres : installPackage pkg preferred env exec = (false, []) := by
          simp [installPackage, hg, he]
        rw [hres, hc]
        exact orchInvariant_empty _
      · have hres : installPackage pkg preferred env exec =
            attemptLoop (fun m => managerInstallCmd env m pkg) exec
              (installCandidates pkg preferred env) [] := by
          simp [installPackage, hg, he]
        rw [hres]
        exact attemptLoop_invariant _ _ _
          (fun m hm => installKeys_handler env pkg m
            (installCandidates_sub pkg preferred env m hm))
    · have hfalse : (detectInstalledManagers env).any (fun p => p.2) = false :=
        Bool.eq_false_iff.mpr hg
      have hall : ∀ q ∈ detectInstalledManagers env, q.2 = false := by
        intro q hq
        exact Bool.eq_false_iff.mpr (List.any_eq_false.mp hfalse q hq)
      have hres : installPackage pkg preferred env exec = (false, []) := by
        simp [installPackage, hfalse]
      rw [hres, installCandidates_nil pkg preferred env hall]
      exact orchInvariant_empty _
  · by_cases hg : (detectInstalledManagers env).any (fun p => p.2) = true
    · have hrc : removeCandidates pkg none env =
          (orderedInstallManagerCandidates pkg
            (detectInstalledManagers env) env).filter
            (fun m => removeKeys.contains m) := rfl
      cases preferred with
      | none =>
        by_cases he : (removeCandidates pkg none env).isEmpty = true
        · have hc : removeCandidates pkg none env = [] := by
            simpa [List.isEmpty_iff] using he
          have hres : removePackage pkg none env exec = (false, []) := by
            simp only [removePackage, hg, Bool.not_true, Bool.false_eq_true,
              if_false]
            rw [← hrc, if_pos he]
          rw [hres, hc]
          exact orchInvariant_empty _
        · have hres : removePackage pkg none env exec =
              attemptLoop (fun x => managerRemoveCmd env x pkg) exec
                (removeCandidates pkg none env) [] := by
            simp only [removePackage, hg, Bool.not_true, Bool.false_eq_true,
              if_false]
            rw [← hrc, if_neg he]
          rw [hres]
          exact attemptLoop_invariant _ _ _
            (fun m hm => removeKeys_handler env pkg m
              (removeCandidates_sub pkg none env m hm))
      | some q =>
        by_cases hcond : (removeKeys.contains (strToLower q) &&
            lookupB (detectInstalledManagers env) (strToLower q)) = true
        · have hres : removePackage pkg (some q) env exec =
              attemptLoop (fun x => managerRemoveCmd env x pkg) exec
                [strToLower q] [] := by
            simp only [removePackage, hg, Bool.not_true, Bool.false_eq_true,
              if_false]
            rw [if_pos hcond]
          have hc : removeCandidates pkg (some q) env = [strToLower q] := by
            simp only [removeCandidates]
            rw [if_pos hcond]
          rw [hres, ← hc]
          exact attemptLoop_invariant _ _ _
            (fun m hm => removeKeys_handler env pkg m
              (removeCandidates_sub pkg (some q) env m hm))
        · have hres : removePackage pkg (some q) env exec = (false, []) := by
            simp only [removePackage, hg, Bool.not_true, Bool.false_eq_true,
              if_false]
            rw [if_neg hcond]
          have hc : removeCandidates pkg (some q) env = [] := by
            simp only [removeCandidates]
            rw [if_neg hcond]
          rw [hres, hc]
          exact orchInvariant_empty _
    · have hfalse : (detectInstalledManagers env).any (fun p => p.2) = false :=
        Bool.eq_false_iff.mpr hg
      have hall : ∀ q ∈ detectInstalledManagers env, q.2 = false := by
        intro q hq
        exact Bool.eq_false_iff.mpr (List.any_eq_false.mp hfalse q hq)
      have hres : removePackage pkg preferred env exec = (false, []) := by
        cases preferred with
        | none => simp [removePackage, hfalse]
        | some q => simp [removePackage, hfalse]
      rw [hres, removeCandidates_nil pkg preferred env hall]
      exact orchInvariant_empty _

/-- Claim C5 counterexample: with `retries = 2` and a command that exits
nonzero, `run_command` launches the command exactly once, performs no
backoff sleep, and returns the failing result immediately — refuting the
claim that a nonzero exit is retried `backoffBase^attempt`-style while
`attempt < maxRetries`. -/
theorem run_command_nonzero_exit_no_retry_cex :
    (run_command 300 2 (fun _ => ProcOutcome.exited 1 "o" "e")).executions
        = 1 ∧
      (run_command 300 2 (fun _ => ProcOutcome.exited 1 "o" "e")).sleeps
        = [] ∧
      (run_command 300 2 (fun _ => ProcOutcome.exited 1 "o" "e")).result
        = ⟨false, 1, "o", "e"⟩ := by
  decide

/-- Claim C5 (amended): `run_command` returns the result of the first
completed execution immediately — a successful result short-circuits, and a
nonzero exit is returned as the failing `RunResult` without any retry or
sleep; the retry loop applies only to launch exceptions. -/
theorem run_command_completed_returned_immediately (t r : Nat)
    (outcomes : Nat → ProcOutcome) (c : Nat) (o e : String)
    (h : outcomes 0 = .exited c o e) :
    run_command t r outcomes = ⟨⟨c == 0, Int.ofNat c, o, e⟩, 1, []⟩ := by
  unfold run_command
  simp [runCommandLoop, h]

/-- Witness for `run_command_completed_returned_immediately` at a concrete
failing command. -/
theorem run_command_completed_returned_immediately_witness :
    run_command 120 3 (fun _ => ProcOutcome.exited 2 "out" "err") =
      ⟨⟨false, 2, "out", "err"⟩, 1, []⟩ :=
  run_command_completed_returned_immediately 120 3 _ 2 "out" "err" rfl

theorem runCommandLoop_timeout (t r : Nat) (outcomes : Nat → ProcOutcome)
    (pout : String) :
    ∀ (j attempt fuel : Nat) (sleeps : List Nat),
      (∀ k, k < j → ∃ m, outcomes (attempt + k) = .launchError m) →
      outcomes (attempt + j) = .timedOut pout →
      attempt + j ≤ r →
      attempt + fuel = r + 1 →
      (runCommandLoop t r outcomes fuel attempt sleeps).result =
        ⟨false, -1, pout,
         "Command timed out after " ++ toString t ++ " seconds"⟩ := by
  intro j
  induction j with
  | zero =>
    intro attempt fuel sleeps _ htime hle hfuel
    rw [Nat.add_zero] at htime
    cases fuel with
    | zero => omega
    | succ f => simp [runCommandLoop, htime]
  | succ n ih =>
    intro attempt fuel sleeps hlaunch htime hle hfuel
    obtain ⟨m, hm⟩ := hlaunch 0 (Nat.succ_pos n)
    rw [Nat.add_zero] at hm
    cases fuel with
    | zero => omega
    | succ f =>
      simp only [runCommandLoop, hm]
      rw [if_neg (by simp only [beq_iff_eq]; omega)]
      refine ih (attempt + 1) f _ ?_ ?_ (by omega) (by omega)
      · intro k hk
        have := hlaunch (k + 1) (by omega)
        rwa [show attempt + (k + 1) = attempt + 1 + k by omega] at this
      · rwa [show attempt + 1 + n = attempt + (n + 1) by omega]

/-- Claim C8: whenever a command exceeds its timeout (after any number of
preceding launch-exception retries), `run_command` kills the process and
returns `ok = false`, the sentinel exit code `-1` — distinct from every real
exit status, which is a natural number — the partial stdout captured after
the kill, and a timeout message in stderr. -/
theorem run_command_timeout_sentinel (t r : Nat)
    (outcomes : Nat → ProcOutcome) (j : Nat) (pout : String)
    (hlaunch : ∀ k, k < j → ∃ m, outcomes k = .launchError m)
    (htime : outcomes j = .timedOut pout) (hj : j ≤ r) :
    (run_command t r outcomes).result.ok = false ∧
      (run_command t r outcomes).result.code = -1 ∧
      (∀ c : Nat, (run_command t r outcomes).result.code ≠ Int.ofNat c) ∧
      (run_command t r outcomes).result.out = pout ∧
      (run_command t r outcomes).result.err =
        "Command timed out after " ++ toString t ++ " seconds" := by
  have key := runCommandLoop_timeout t r outcomes pout j 0 (r + 1) []
    (by simpa using hlaunch) (by simpa using htime) (by simpa using hj)
    (by omega)
  unfold run_command
  rw [key]
  refine ⟨rfl, rfl, ?_, rfl, rfl⟩
  intro c
  show (-1 : Int) ≠ Int.ofNat c
  intro hEq
  have h0 : (0 : Int) ≤ Int.ofNat c := Int.ofNat_nonneg c
  rw [← hEq] at h0
  norm_num at h0

/-- Witness for `run_command_timeout_sentinel`: a command that times out on
its first execution. -/
theorem run_command_timeout_sentinel_witness :
    (run_command 60 0 (fun _ => ProcOutcome.timedOut "po")).result.ok
        = false ∧
      (run_command 60 0 (fun _ => ProcOutcome.timedOut "po")).result.code
        = -1 ∧
      (∀ c : Nat,
        (run_command 60 0 (fun _ => ProcOutcome.timedOut "po")).result.code
          ≠ Int.ofNat c) ∧
      (run_command 60 0 (fun _ => ProcOutcome.timedOut "po")).result.out
        = "po" ∧
      (run_command 60 0 (fun _ => ProcOutcome.timedOut "po")).result.err
        = "Command timed out after " ++ toString 60 ++ " seconds" :=
  run_command_timeout_sentinel 60 0 _ 0 "po"
    (fun k hk => absurd hk (Nat.not_lt_zero k)) rfl (Nat.le_refl 0)

/-- Claim C9 counterexample: two environments with the same availability
map (`apt` and `dnf` available, everything else not) but different PATH
states produce different candidate orders for the same package — the
resolver probes `shutil.which` directly in `_system_manager_priority`, so
its output is not a pure function of the availability map. -/
theorem resolver_depends_on_environment_cex :
    orderedInstallManagerCandidates "foo" instAptDnf envLinuxApt
        = ["apt", "dnf"] ∧
      orderedInstallManagerCandidates "foo" instAptDnf envLinuxDnf
        = ["dnf", "apt"] ∧
      orderedInstallManagerCandidates "foo" instAptDnf envLinuxApt
        ≠ orderedInstallManagerCandidates "foo" instAptDnf envLinuxDnf := by
  decide

/-- Claim C9 (amended): candidate resolution is deterministic given the
package reference, the availability map, the OS type, and the results of
the PATH probes performed by `_system_manager_priority` — two environments
agreeing on those probes yield identical ordered output, whatever else
differs between them. -/
theorem resolver_deterministic_given_probes (pkg : String)
    (installed : List (String × Bool)) (env1 env2 : Env)
    (hos : env1.osType = env2.osType)
    (hw : ∀ c ∈ ["apt", "apt-get", "dnf", "yum", "pacman", "zypper", "apk"],
      env1.which c = env2.which c) :
    orderedInstallManagerCandidates pkg installed env1 =
      orderedInstallManagerCandidates pkg installed env2 := by
  have hsys : systemManagerPriority env1 = systemManagerPriority env2 := by
    unfold systemManagerPriority
    rw [hos]
    cases env2.osType with
    | windows => rfl
    | macos => rfl
    | unknown => rfl
    | linux =>
      rw [hw "apt" (by simp), hw "apt-get" (by simp), hw "dnf" (by simp),
        hw "yum" (by simp), hw "pacman" (by simp), hw "zypper" (by simp),
        hw "apk" (by simp)]
  unfold orderedInstallManagerCandidates
  rw [hsys]

/-- Witness for `resolver_deterministic_given_probes`: two Linux
environments with identical PATH probes but different recorded Python
interpreters resolve identically. -/
theorem resolver_deterministic_given_probes_witness :
    orderedInstallManagerCandidates "foo" instAptDnf envLinuxApt =
      orderedInstallManagerCandidates "foo" instAptDnf
        ⟨.linux, fun s => s == "apt", "python3"⟩ :=
  resolver_deterministic_given_probes "foo" instAptDnf envLinuxApt
    ⟨.linux, fun s => s == "apt", "python3"⟩ rfl (fun _ _ => rfl)

/-- Claim C7 counterexample: on a host where `brew` is available and every
command would succeed, `remove_package` with unavailable preferred manager
`apt` returns a hard error `(false, [])` with no attempts — even though the
resolver order without a preference is the nonempty `["brew"]` — refuting
the claim that an unavailable preferred manager only warns and resolution
continues over the remaining candidates. -/
theorem remove_preferred_unavailable_is_error_cex :
    removePackage "foo" (some "apt") envMacBrew (fun _ => ⟨true, 0, "", ""⟩)
        = (false, []) ∧
      removeCandidates "foo" none envMacBrew = ["brew"] := by
  decide

/-- Claim C7 (amended): for `install_package`, an available preferred
manager is first in the resolved order, and a preferred manager that is
unknown or unavailable is ignored (only a console warning), the order
falling back to the plain resolver output; for `remove_package`, an
available requested manager is the sole (hence first) candidate, but an
unavailable or removal-incapable one is a hard error — the call returns
`(false, [])` without attempting any manager. -/
theorem preferred_manager_handling :
    (∀ (pkg p : String) (env : Env),
      installKeys.contains (strToLower p) = true →
      lookupB (detectInstalledManagers env) (strToLower p) = true →
      (installCandidates pkg (some p) env).head? = some (strToLower p)) ∧
    (∀ (pkg p : String) (env : Env),
      (installKeys.contains (strToLower p) &&
        lookupB (detectInstalledManagers env) (strToLower p)) = false →
      installCandidates pkg (some p) env = installCandidates pkg none env) ∧
    (∀ (pkg p : String) (env : Env),
      removeKeys.contains (strToLower p) = true →
      lookupB (detectInstalledManagers env) (strToLower p) = true →
      removeCandidates pkg (some p) env = [strToLower p]) ∧
    (∀ (pkg p : String) (env : Env) (exec : List String → RunResult),
      (removeKeys.contains (strToLower p) &&
        lookupB (detectInstalledManagers env) (strToLower p)) = false →
      removePackage pkg (some p) env exec = (false, [])) := by
  refine ⟨?_, ?_, ?_, ?_⟩
  · intro pkg p env h1 h2
    simp only [installCandidates]
    rw [if_pos (show (installKeys.contains (strToLower p) &&
      lookupB (detectInstalledManagers env) (strToLower p)) = true by
        rw [h1, h2]; rfl)]
    rfl
  · intro pkg p env hcond
    simp only [installCandidates]
    rw [if_neg (by rw [hcond]; exact Bool.false_ne_true)]
  · intro pkg p env h1 h2
    simp only [removeCandidates]
    rw [if_pos (show (removeKeys.contains (strToLower p) &&
      lookupB (detectInstalledManagers env) (strToLower p)) = true by
        rw [h1, h2]; rfl)]
  · intro pkg p env exec hcond
    by_cases hg : (detectInstalledManagers env).any (fun q => q.2) = true
    · simp only [removePackage, hg, Bool.not_true, Bool.false_eq_true,
        if_false]
      rw [if_neg (by rw [hcond]; exact Bool.false_ne_true)]
    · have hfalse :
          (detectInstalledManagers env).any (fun q => q.2) = false :=
        Bool.eq_false_iff.mpr hg
      simp [removePackage, hfalse]

/-- Witness for `preferred_manager_handling`: an available preferred
manager heads the install order, and an unavailable requested manager makes
removal fail with no attempts. -/
theorem preferred_manager_handling_witness :
    (installCandidates "foo" (some "brew") envMacBrew).head?
        = some "brew" ∧
      removePackage "foo" (some "apt") envMacBrew (fun _ => ⟨false, 1, "", ""⟩)
        = (false, []) :=
  ⟨preferred_manager_handling.1 "foo" "brew" envMacBrew (by decide)
      (by decide),
   preferred_manager_handling.2.2.2 "foo" "apt" envMacBrew
      (fun _ => ⟨false, 1, "", ""⟩) (by decide)⟩

/-- Claim C10: the destination file exists after
`download_file_with_progress` exactly when the call returned success — every
failure (connection error, mid-stream exception, hash mismatch) deletes any
partially written or corrupt file, so failure never leaves data at the
destination path. -/
theorem download_failure_no_destination (hashFn : List Nat → String)
    (w : DownloadWorld) (expectedHash : Option String) (fs0 : FS) :
    (downloadFileWithProgress hashFn w expectedHash fs0).fs.dest.isSome =
      (downloadFileWithProgress hashFn w expectedHash fs0).ok := by
  obtain ⟨op, cl, ch, fa⟩ := w
  cases op with
  | true => rfl
  | false =>
    cases fa with
    | some k => rfl
    | none =>
      cases expectedHash with
      | none => rfl
      | some h =>
        by_cases hb : (strToLower (hashFn ch.flatten) != strToLower h) = true
        · simp only [downloadFileWithProgress]
          rw [if_pos hb]
          rfl
        · simp only [downloadFileWithProgress]
          rw [if_neg hb]
          rfl

/-- Claim C2 counterexample: a self-update from a URL on host
`evil.example.com` is not rejected — `cross_update` downloads 3 payload
bytes, writes the backup, and replaces the current script, returning
success; there is no `UntrustedHost` failure, no zero-download and no
zero-write guarantee, because the source never checks the URL host. -/
theorem cross_update_untrusted_host_proceeds_cex :
    cross_update (fun _ => "h") ⟨⟨false, 3, [[1, 2, 3]], none⟩, none⟩
        "https://evil.example.com/crossfire.py" none ⟨some [9], none, none⟩
      = ⟨true, ⟨some [1, 2, 3], some [9], none⟩, 3⟩ := by
  decide

/-- Claim C2 (amended): `cross_update` performs no host validation at all —
its behaviour is identical for every URL, and with a working download world
it succeeds (downloading the payload) whatever host the URL names; failures
can only come from the download itself or the hash check. -/
theorem cross_update_no_host_check :
    (∀ (hashFn : List Nat → String) (w : UpdateWorld) (sha : Option String)
      (st : UpdateState) (url1 url2 : String),
      cross_update hashFn w url1 sha st = cross_update hashFn w url2 sha st) ∧
    (∀ (url : String) (st : UpdateState) (data : List Nat) (cl : Nat),
      (cross_update (fun _ => "h") ⟨⟨false, cl, [data], none⟩, none⟩
        url none st).ok = true ∧
      (cross_update (fun _ => "h") ⟨⟨false, cl, [data], none⟩, none⟩
        url none st).bytesDownloaded = (List.flatten [data]).length) := by
  constructor
  · intro hashFn w sha st url1 url2; rfl
  · intro url st data cl
    exact ⟨rfl, rfl⟩

/-- Claim C3 counterexample: the download succeeds, the backup of the
current script content `[9, 9]` is created, and then the swap copy raises
leaving `[0]` at the script path; `cross_update` returns failure with the
script content still `[0]` and the temp file leaked — it does not restore
the pre-update executable from the `.backup` file. -/
theorem cross_update_no_rollback_cex :
    cross_update (fun _ => "h") ⟨⟨false, 3, [[1, 2, 3]], none⟩, some [0]⟩
        "u" none ⟨some [9, 9], none, none⟩
      = ⟨false, ⟨some [0], some [9, 9], some [1, 2, 3]⟩, 3⟩ := by
  decide

/-- Claim C3 (amended): when the swap copy raises after the backup was
created, `cross_update` reports the error and returns failure, leaving the
`.backup` file in place (so manual recovery is possible) — but it performs
no restore: the current executable retains whatever content the failed copy
left, and the downloaded temp file is not cleaned up. -/
theorem cross_update_swap_failure_no_restore (hashFn : List Nat → String)
    (cl : Nat) (data corrupt cur : List Nat)
    (backup0 temp0 : Option (List Nat)) (url : String) :
    cross_update hashFn ⟨⟨false, cl, [data], none⟩, some corrupt⟩ url none
        ⟨some cur, backup0, temp0⟩
      = ⟨false, ⟨some corrupt, some cur, some data⟩, data.length⟩ := by
  simp [cross_update, downloadFileWithProgress]

/-- Claim C4 counterexample: with a corrupted payload and a mismatching
`expected_hash`, `download_file_with_progress` opens and writes the
destination file (a filesystem mutation) before the hash comparison, and
only then fails — refuting the claim that a hash mismatch fails before any
filesystem mutation. -/
theorem download_hash_check_after_write_cex :
    (downloadFileWithProgress (fun _ => "aaaa") ⟨false, 3, [[1, 2, 3]], none⟩
        (some "bbbb") ⟨none⟩).wroteDest = true ∧
      (downloadFileWithProgress (fun _ => "aaaa") ⟨false, 3, [[1, 2, 3]], none⟩
        (some "bbbb") ⟨none⟩).ok = false := by
  decide

/-- Claim C4 (amended): on a hash mismatch the update fails after the
payload was streamed to the temporary download file, which is then deleted;
the current executable and its backup are untouched and the operation
returns failure. -/
theorem cross_update_hash_mismatch_frame (hashFn : List Nat → String)
    (w : UpdateWorld) (h url : String) (st : UpdateState)
    (hopen : w.dl.openFails = false) (hfail : w.dl.failAfter = none)
    (hmis : strToLower (hashFn w.dl.chunks.flatten) ≠ strToLower h) :
    (cross_update hashFn w url (some h) st).ok = false ∧
      (cross_update hashFn w url (some h) st).st.currentScript =
        st.currentScript ∧
      (cross_update hashFn w url (some h) st).st.backup = st.backup ∧
      (cross_update hashFn w url (some h) st).st.tempFile = none := by
  obtain ⟨⟨op, cl, ch, fa⟩, sf⟩ := w
  simp only at hopen hfail hmis
  subst hopen
  subst hfail
  have hb : (strToLower (hashFn ch.flatten) != strToLower h) = true :=
    bne_iff_ne.mpr hmis
  refine ⟨?_, ?_, ?_, ?_⟩ <;>
    simp [cross_update, downloadFileWithProgress, hb]

/-- Witness for `cross_update_hash_mismatch_frame` at a concrete corrupted
payload. -/
theorem cross_update_hash_mismatch_frame_witness :
    (cross_update (fun _ => "aa") ⟨⟨false, 1, [[5]], none⟩, none⟩ "u"
        (some "bb") ⟨some [7], none, none⟩).ok = false ∧
      (cross_update (fun _ => "aa") ⟨⟨false, 1, [[5]], none⟩, none⟩ "u"
        (some "bb") ⟨some [7], none, none⟩).st.currentScript = some [7] ∧
      (cross_update (fun _ => "aa") ⟨⟨false, 1, [[5]], none⟩, none⟩ "u"
        (some "bb") ⟨some [7], none, none⟩).st.backup = none ∧
      (cross_update (fun _ => "aa") ⟨⟨false, 1, [[5]], none⟩, none⟩ "u"
        (some "bb") ⟨some [7], none, none⟩).st.tempFile = none :=
  cross_update_hash_mismatch_frame (fun _ => "aa")
    ⟨⟨false, 1, [[5]], none⟩, none⟩ "bb" "u" ⟨some [7], none, none⟩
    rfl rfl (by decide)

/-- Claim C6 counterexample: a download whose declared `Content-Length` is
12,000,000 bytes (above the claimed 10,000,000 cap) is not rejected —
the chunks are fetched, written to the destination, and the call succeeds,
because the source never compares any size against a cap. -/
theorem download_oversize_not_rejected_cex :
    downloadFileWithProgress (fun _ => "h") ⟨false, 12000000, [[1, 2, 3]], none⟩
        none ⟨none⟩
      = ⟨true, ⟨some [1, 2, 3]⟩, true, 3⟩ := by
  decide

/-- Claim C6 (amended): `download_file_with_progress` enforces no size cap:
its result does not depend on the declared `Content-Length` at all (the
header only sizes the progress bar), and a clean streaming download of any
chunk list succeeds with every byte written. -/
theorem download_no_size_cap :
    (∀ (hashFn : List Nat → String) (w : DownloadWorld) (e : Option String)
      (fs0 : FS) (a b : Nat),
      downloadFileWithProgress hashFn { w with contentLength := a } e fs0 =
        downloadFileWithProgress hashFn { w with contentLength := b } e fs0) ∧
    (∀ (hashFn : List Nat → String) (cl : Nat) (chunks : List (List Nat))
      (fs0 : FS),
      (downloadFileWithProgress hashFn ⟨false, cl, chunks, none⟩ none
        fs0).ok = true ∧
      (downloadFileWithProgress hashFn ⟨false, cl, chunks, none⟩ none
        fs0).fs.dest = some chunks.flatten) := by
  constructor
  · intro hashFn w e fs0 a b; rfl
  · intro hashFn cl chunks fs0
    exact ⟨rfl, rfl⟩

end CrossFire
